import Mathlib

/-!
Shallow embedding of `pkg/runner/rurnner.go` from the goployer repository:
the deployment orchestration engine (mode flows, the two convergence
pollers, and the capacity-update planner), together with proofs of the
specification claims about it.

Go `int64` values are modelled as `Int` (no overflow is relevant to any
claim: the only arithmetic is comparison).  Fallible Go functions
(returning `error`) are modelled as `Except String α`; a `nil` error is
`.ok`.  The possibly non-terminating polling loops are modelled with an
explicit fuel parameter: a result of `none` means the loop is still
running after `fuel` rounds (modelling divergence in the limit), and
`some r` means the Go function returned `r`.
-/

namespace Goployer

/-- `schemas.Capacity`: the (Min, Max, Desired) autoscaling bounds triple. -/
structure Capacity where
  Min : Int
  Max : Int
  Desired : Int
deriving DecidableEq

/-- Error message of `CheckUpdateInformation` when `new.Min > new.Max`. -/
def errMinOverMax : String := "minimum value cannot be larger than maximum value"

/-- Error message of `CheckUpdateInformation` when `new.Min > new.Desired`
(the Go source's wording mentions "maximum" although the rule guards the
minimum against the desired value; the string is carried over verbatim). -/
def errMinOverDesired : String := "desired value cannot be smaller than maximum value"

/-- Error message of `CheckUpdateInformation` when `new.Desired > new.Max`. -/
def errDesiredOverMax : String := "desired value cannot be larger than max value"

/-- Error message of `CheckUpdateInformation` when `old == new`. -/
def errNothingUpdated : String := "nothing is updated"

/-- `CheckUpdateInformation` from rurnner.go: validates the updated
capacity triple, testing the four rules in source order. -/
def CheckUpdateInformation (old new : Capacity) : Except String Unit :=
  if new.Min > new.Max then .error errMinOverMax
  else if new.Min > new.Desired then .error errMinOverDesired
  else if new.Desired > new.Max then .error errDesiredOverMax
  else if old = new then .error errNothingUpdated
  else .ok ()

/-- `makeCapacityStruct` from rurnner.go. -/
def makeCapacityStruct (min max desired : Int) : Capacity := ⟨min, max, desired⟩

/-- `nullCheck` from rurnner.go: return the original value when no input
(a negative value) is given, otherwise the input. -/
def nullCheck (input origin : Int) : Int :=
  if input < 0 then origin else input

/-- The caller-supplied per-field capacity overrides carried in the
builder config (`Config.Min`, `Config.Max`, `Config.Desired`); a negative
field means "no override". -/
structure CapacityOverrides where
  Min : Int
  Max : Int
  Desired : Int

/-- The new capacity triple computed by `Runner.Update` (rurnner.go line
531): each field is `nullCheck` of the override against the fetched
current value. -/
def updateNewCapacity (cfg : CapacityOverrides) (oldCapacity : Capacity) : Capacity :=
  makeCapacityStruct (nullCheck cfg.Min oldCapacity.Min) (nullCheck cfg.Max oldCapacity.Max)
    (nullCheck cfg.Desired oldCapacity.Desired)

/-- C6: for every pair of capacity triples, if the new triple is
internally consistent (`Min ≤ Desired ≤ Max`) and differs from the old
one then `CheckUpdateInformation` returns no error, and whenever the new
triple equals the old one it returns an error. -/
theorem checkUpdateInformation_valid_and_noop (old new : Capacity) :
    (new.Min ≤ new.Desired → new.Desired ≤ new.Max → new ≠ old →
      CheckUpdateInformation old new = .ok ()) ∧
    (new = old → ∃ e, CheckUpdateInformation old new = .error e) := by
  constructor
  · intro h1 h2 hne
    unfold CheckUpdateInformation
    rw [if_neg (by omega), if_neg (by omega), if_neg (by omega),
      if_neg (fun h => hne h.symm)]
  · intro he
    unfold CheckUpdateInformation
    by_cases hmm : new.Min > new.Max
    · exact ⟨errMinOverMax, by rw [if_pos hmm]⟩
    by_cases hmd : new.Min > new.Desired
    · exact ⟨errMinOverDesired, by rw [if_neg hmm, if_pos hmd]⟩
    by_cases hdm : new.Desired > new.Max
    · exact ⟨errDesiredOverMax, by rw [if_neg hmm, if_neg hmd, if_pos hdm]⟩
    · exact ⟨errNothingUpdated, by rw [if_neg hmm, if_neg hmd, if_neg hdm, if_pos he.symm]⟩

/-- Witness for C6 at concrete inputs: old = (1,3,2), new = (1,4,2) is a
valid changed triple and is accepted; new = old is rejected. -/
theorem checkUpdateInformation_valid_and_noop_witness :
    (CheckUpdateInformation ⟨1, 3, 2⟩ ⟨1, 4, 2⟩ = .ok () ∧
      ∃ e, CheckUpdateInformation ⟨1, 3, 2⟩ ⟨1, 3, 2⟩ = .error e) := by
  refine ⟨(checkUpdateInformation_valid_and_noop ⟨1, 3, 2⟩ ⟨1, 4, 2⟩).1
      (by decide) (by decide) (by decide),
    (checkUpdateInformation_valid_and_noop ⟨1, 3, 2⟩ ⟨1, 3, 2⟩).2 rfl⟩

/-- C7: when the new triple violates at least one bound rule,
`CheckUpdateInformation` returns the error of the first violated rule in
the fixed source order: `Min > Max`, then `Min > Desired`, then
`Desired > Max`. -/
theorem checkUpdateInformation_first_violated_rule (old new : Capacity) :
    (new.Min > new.Max → CheckUpdateInformation old new = .error errMinOverMax) ∧
    (new.Min ≤ new.Max → new.Min > new.Desired →
      CheckUpdateInformation old new = .error errMinOverDesired) ∧
    (new.Min ≤ new.Max → new.Min ≤ new.Desired → new.Desired > new.Max →
      CheckUpdateInformation old new = .error errDesiredOverMax) := by
  refine ⟨fun h1 => ?_, fun h1 h2 => ?_, fun h1 h2 h3 => ?_⟩ <;>
    unfold CheckUpdateInformation
  · rw [if_pos h1]
  · rw [if_neg (by omega), if_pos h2]
  · rw [if_neg (by omega), if_neg (by omega), if_pos h3]

/-- Witness for C7 at concrete inputs, one per rule. -/
theorem checkUpdateInformation_first_violated_rule_witness :
    CheckUpdateInformation ⟨0, 0, 0⟩ ⟨5, 1, 3⟩ = .error errMinOverMax ∧
    CheckUpdateInformation ⟨0, 0, 0⟩ ⟨2, 5, 1⟩ = .error errMinOverDesired ∧
    CheckUpdateInformation ⟨0, 0, 0⟩ ⟨1, 2, 7⟩ = .error errDesiredOverMax :=
  ⟨(checkUpdateInformation_first_violated_rule ⟨0, 0, 0⟩ ⟨5, 1, 3⟩).1 (by decide),
    (checkUpdateInformation_first_violated_rule ⟨0, 0, 0⟩ ⟨2, 5, 1⟩).2.1 (by decide) (by decide),
    (checkUpdateInformation_first_violated_rule ⟨0, 0, 0⟩ ⟨1, 2, 7⟩).2.2 (by decide) (by decide)
      (by decide)⟩

/-- C8: each field of the new capacity computed by the update flow equals
the caller-supplied override when that override is non-negative, and the
fetched current value otherwise. -/
theorem updateNewCapacity_fields (cfg : CapacityOverrides) (oldCapacity : Capacity) :
    (updateNewCapacity cfg oldCapacity).Min
        = (if 0 ≤ cfg.Min then cfg.Min else oldCapacity.Min) ∧
    (updateNewCapacity cfg oldCapacity).Max
        = (if 0 ≤ cfg.Max then cfg.Max else oldCapacity.Max) ∧
    (updateNewCapacity cfg oldCapacity).Desired
        = (if 0 ≤ cfg.Desired then cfg.Desired else oldCapacity.Desired) := by
  refine ⟨?_, ?_, ?_⟩ <;>
    · simp only [updateNewCapacity, makeCapacityStruct, nullCheck]
      split <;> split <;> omega

/-! ## The two convergence pollers

`doHealthchecking` and `cleanChecking` drive a set of deployers by
repeated probe rounds.  The only datum of a deployer the pollers use is
`GetStackName()`, so a deployer is modelled by its stack name (a
`String`).  A probe result (the map `map[string]bool` sent on the
channel) is an association list `List (String × Bool)`; the probe
behaviour of the whole deployer set is a function
`probe : Nat → String → List (String × Bool)` giving the result map the
deployer with a given stack name sends in a given round.  The per-round
channel arrival order is modelled as the deployer-list order; all claims
proved below are insensitive to that order. -/

/-- Go map lookup `ret[key]` on the modelled result map: the value at the
first matching key, or `false` (the zero value) when absent. -/
def mapGet (ret : List (String × Bool)) (key : String) : Bool :=
  match ret.find? (fun p => p.1 == key) with
  | some p => p.2
  | none => false

/-- Modelled from the spec: `tool.IsStringInArray` is not under `src/`;
per the spec, done stacks are "excluded from future probe rounds" via
"set membership", so the function reports whether the string occurs in
the array. -/
def IsStringInArray (s : String) (arr : List String) : Bool :=
  arr.contains s

/-- Modelled from the spec: `tool.CheckTimeout` is not under `src/`; per
the spec the health poller "re-checks the deadline against
startTimestamp and fails with a timeout error if exceeded", i.e. it
reports whether the elapsed time `now - start` exceeds the timeout. -/
def CheckTimeout (start timeout now : Int) : Bool :=
  now - start > timeout

/-- The error returned by `doHealthchecking` when a probe result carries
the error sentinel. -/
def errHealthSentinel : String := "error happened while healthchecking"

/-- The error returned by `doHealthchecking` on deadline excess (the Go
message also interpolates the timeout in minutes, which no claim
depends on). -/
def errTimeoutExceeded : String := "timeout has been exceeded"

/-- The keys a health-round collector appends to `healthyStackList` from
one result map: every key other than the sentinel key `"error"` whose
value is `true` (rurnner.go lines 642-649). -/
def trueKeysHealth (ret : List (String × Bool)) : List String :=
  (ret.filter (fun p => (p.1 != "error") && p.2)).map (fun p => p.1)

/-- The keys a termination-round collector appends to `doneStackList`
from one result map: every key whose value is `true` (rurnner.go lines
689-694; no sentinel handling here). -/
def trueKeysClean (ret : List (String × Bool)) : List String :=
  (ret.filter (fun p => p.2)).map (fun p => p.1)

/-- The fan-in receive loop of one health round (rurnner.go lines
637-651): consume the launched probes' result maps one by one; a map
whose `"error"` entry is true aborts the whole operation at once,
otherwise its true keys are appended to the accumulated list. -/
def collectHealth : List (List (String × Bool)) → List String → Except String (List String)
  | [], done => .ok done
  | ret :: rest, done =>
    if mapGet ret "error" then .error errHealthSentinel
    else collectHealth rest (done ++ trueKeysHealth ret)

/-- The fan-in receive loop of one termination round (rurnner.go lines
687-696): append every true key of every result map. -/
def collectClean : List (List (String × Bool)) → List String → List String
  | [], done => done
  | ret :: rest, done => collectClean rest (done ++ trueKeysClean ret)

/-- The deployers probed in a round: those whose stack name is not yet in
the accumulated done list (rurnner.go lines 624-627 / 674-677). -/
def probedIds (deployers done : List String) : List String :=
  deployers.filter (fun d => !IsStringInArray d done)

/-- One full round of `doHealthchecking`: probe every not-yet-healthy
deployer and collect the results. -/
def healthRound (deployers : List String) (probe : Nat → String → List (String × Bool))
    (k : Nat) (done : List String) : Except String (List String) :=
  collectHealth ((probedIds deployers done).map (probe k)) done

/-- One full round of `cleanChecking`. -/
def cleanRound (deployers : List String) (probe : Nat → String → List (String × Bool))
    (k : Nat) (done : List String) : List String :=
  collectClean ((probedIds deployers done).map (probe k)) done

/-- The accumulated `healthyStackList` after `k` rounds of
`doHealthchecking` (error = a sentinel aborted some earlier round). -/
def healthDoneAfter (deployers : List String) (probe : Nat → String → List (String × Bool)) :
    Nat → Except String (List String)
  | 0 => .ok []
  | k + 1 => (healthDoneAfter deployers probe k).bind (healthRound deployers probe k)

/-- The accumulated `doneStackList` after `k` rounds of `cleanChecking`. -/
def cleanDoneAfter (deployers : List String) (probe : Nat → String → List (String × Bool)) :
    Nat → List String
  | 0 => []
  | k + 1 => cleanRound deployers probe k (cleanDoneAfter deployers probe k)

/-- The `for !healthy` loop of `doHealthchecking` (rurnner.go lines
615-660), with fuel bounding the number of rounds: at the top of round
`k` the deadline is checked first; then the round's probes are launched
and collected; the loop exits successfully when the accumulated list's
length equals the deployer count.  `none` means the loop is still
running after `fuel` rounds. -/
def healthLoop (deployers : List String) (probe : Nat → String → List (String × Bool))
    (isTimeout : Nat → Bool) : Nat → Nat → List String → Option (Except String Unit)
  | 0, _, _ => none
  | fuel + 1, k, done =>
    if isTimeout k then some (.error errTimeoutExceeded)
    else
      match healthRound deployers probe k done with
      | .error e => some (.error e)
      | .ok done' =>
        if done'.length = deployers.length then some (.ok ())
        else healthLoop deployers probe isTimeout fuel (k + 1) done'

/-- `doHealthchecking` from rurnner.go.  The deadline test of round `k`
is `CheckTimeout startTimestamp timeout (clock k)` with the fixed
`config.StartTimestamp` captured before the first round, where `clock k`
is the wall time at the boundary of round `k`. -/
def doHealthchecking (deployers : List String) (probe : Nat → String → List (String × Bool))
    (startTimestamp timeout : Int) (clock : Nat → Int) (fuel : Nat) :
    Option (Except String Unit) :=
  healthLoop deployers probe (fun k => CheckTimeout startTimestamp timeout (clock k)) fuel 0 []

/-- The `for !done` loop of `cleanChecking` (rurnner.go lines 666-708):
no deadline check at all, and no error-producing exit; the result type
still allows `Except.error` so that the absence of error exits is a
provable property rather than a typing artefact. -/
def cleanLoop (deployers : List String) (probe : Nat → String → List (String × Bool)) :
    Nat → Nat → List String → Option (Except String Unit)
  | 0, _, _ => none
  | fuel + 1, k, done =>
    let done' := cleanRound deployers probe k done
    if done'.length = deployers.length then some (.ok ())
    else cleanLoop deployers probe fuel (k + 1) done'

/-- `cleanChecking` from rurnner.go. -/
def cleanChecking (deployers : List String) (probe : Nat → String → List (String × Bool))
    (fuel : Nat) : Option (Except String Unit) :=
  cleanLoop deployers probe fuel 0 []

/-- The set `S_k` of identifiers reported true in health-probe round `k`
against a given accumulated done list: all non-sentinel true keys of the
round's result maps. -/
def trueIdsHealth (deployers : List String) (probe : Nat → String → List (String × Bool))
    (done : List String) (k : Nat) : List String :=
  (((probedIds deployers done).map (probe k)).map trueKeysHealth).flatten

/-- The set `S_k` of identifiers reported true in termination-probe round
`k` against a given accumulated done list. -/
def trueIdsClean (deployers : List String) (probe : Nat → String → List (String × Bool))
    (done : List String) (k : Nat) : List String :=
  (((probedIds deployers done).map (probe k)).map trueKeysClean).flatten

/-- Explicit closed form of the health poller's accumulated list after
`k` sentinel-free rounds (used to witness the existential structure of
`healthDoneAfter`, which is `Except`-valued). -/
def healthDoneRun (deployers : List String) (probe : Nat → String → List (String × Bool)) :
    Nat → List String
  | 0 => []
  | k + 1 =>
    healthDoneRun deployers probe k ++
      trueIdsHealth deployers probe (healthDoneRun deployers probe k) k

theorem collectClean_eq (rets : List (List (String × Bool))) (done : List String) :
    collectClean rets done = done ++ (rets.map trueKeysClean).flatten := by
  induction rets generalizing done with
  | nil => simp [collectClean]
  | cons ret rest ih => simp [collectClean, ih]

theorem collectHealth_eq_of_no_sentinel (rets : List (List (String × Bool)))
    (done : List String) (h : ∀ ret ∈ rets, mapGet ret "error" = false) :
    collectHealth rets done = .ok (done ++ (rets.map trueKeysHealth).flatten) := by
  induction rets generalizing done with
  | nil => simp [collectHealth]
  | cons ret rest ih =>
    have hret : mapGet ret "error" = false := h ret (List.mem_cons_self _ _)
    simp [collectHealth, hret, ih _ (fun r hr => h r (List.mem_cons_of_mem _ hr))]

theorem cleanRound_eq (deployers : List String) (probe : Nat → String → List (String × Bool))
    (k : Nat) (done : List String) :
    cleanRound deployers probe k done = done ++ trueIdsClean deployers probe done k := by
  simp [cleanRound, trueIdsClean, collectClean_eq]

theorem healthRound_eq_of_no_sentinel (deployers : List String)
    (probe : Nat → String → List (String × Bool)) (k : Nat) (done : List String)
    (h : ∀ j x, mapGet (probe j x) "error" = false) :
    healthRound deployers probe k done = .ok (done ++ trueIdsHealth deployers probe done k) := by
  rw [healthRound, collectHealth_eq_of_no_sentinel]
  · rfl
  · intro ret hret
    rcases List.mem_map.mp hret with ⟨x, _, rfl⟩
    exact h k x

theorem healthDoneAfter_eq_run (deployers : List String)
    (probe : Nat → String → List (String × Bool))
    (h : ∀ j x, mapGet (probe j x) "error" = false) (k : Nat) :
    healthDoneAfter deployers probe k = .ok (healthDoneRun deployers probe k) := by
  induction k with
  | zero => rfl
  | succ n ih =>
    rw [healthDoneAfter, ih, Except.bind, healthDoneRun,
      healthRound_eq_of_no_sentinel deployers probe n _ h]

theorem mem_done_iff_union (d S : Nat → List String) (h0 : d 0 = [])
    (hstep : ∀ k, d (k + 1) = d k ++ S k) (k : Nat) (x : String) :
    x ∈ d k ↔ ∃ j, j < k ∧ x ∈ S j := by
  induction k with
  | zero => simp [h0]
  | succ n ih =>
    rw [hstep n]
    simp only [List.mem_append, ih]
    constructor
    · rintro (⟨j, hj, hx⟩ | hx)
      · exact ⟨j, Nat.lt_succ_of_lt hj, hx⟩
      · exact ⟨n, Nat.lt_succ_self n, hx⟩
    · rintro ⟨j, hj, hx⟩
      rcases Nat.lt_succ_iff_lt_or_eq.mp hj with h | h
      · exact Or.inl ⟨j, h, hx⟩
      · subst h; exact Or.inr hx

theorem mem_done_mono (d S : Nat → List String) (hstep : ∀ k, d (k + 1) = d k ++ S k)
    (k l : Nat) (hkl : k ≤ l) (x : String) (hx : x ∈ d k) : x ∈ d l := by
  induction hkl with
  | refl => exact hx
  | step hm ih =>
    rw [hstep]
    exact List.mem_append_left _ ih

theorem not_mem_probedIds_of_mem_done (deployers done : List String) (x : String)
    (hx : x ∈ done) : x ∉ probedIds deployers done := by
  intro hmem
  rw [probedIds, List.mem_filter] at hmem
  simp [IsStringInArray, hx] at hmem

/-- C1: in both convergence pollers the accumulated done-set is monotone:
the done-set after round `k` holds exactly the identifiers reported true
in rounds `0..k-1` (in the health poller, provided no probe ever yields
the error sentinel, which would instead abort the poll), an identifier
once inserted stays in the done-set of every later round, and it is not
probed in any round at whose boundary it is already in the done-set. -/
theorem convergence_pollers_done_monotone_union (deployers : List String)
    (probe : Nat → String → List (String × Bool)) :
    ((∀ j x, mapGet (probe j x) "error" = false) →
      (∀ k, healthDoneAfter deployers probe k = .ok (healthDoneRun deployers probe k)) ∧
      (∀ k x, x ∈ healthDoneRun deployers probe k ↔
        ∃ j, j < k ∧ x ∈ trueIdsHealth deployers probe (healthDoneRun deployers probe j) j) ∧
      (∀ k l x, k ≤ l → x ∈ healthDoneRun deployers probe k →
        x ∈ healthDoneRun deployers probe l ∧
        x ∉ probedIds deployers (healthDoneRun deployers probe l))) ∧
    ((∀ k x, x ∈ cleanDoneAfter deployers probe k ↔
        ∃ j, j < k ∧ x ∈ trueIdsClean deployers probe (cleanDoneAfter deployers probe j) j) ∧
      (∀ k l x, k ≤ l → x ∈ cleanDoneAfter deployers probe k →
        x ∈ cleanDoneAfter deployers probe l ∧
        x ∉ probedIds deployers (cleanDoneAfter deployers probe l))) := by
  have hcstep : ∀ k, cleanDoneAfter deployers probe (k + 1) =
      cleanDoneAfter deployers probe k ++
        trueIdsClean deployers probe (cleanDoneAfter deployers probe k) k := by
    intro k
    rw [cleanDoneAfter, cleanRound_eq]
  have hhstep : ∀ k, healthDoneRun deployers probe (k + 1) =
      healthDoneRun deployers probe k ++
        trueIdsHealth deployers probe (healthDoneRun deployers probe k) k := by
    intro k
    rw [healthDoneRun]
  refine ⟨fun hns => ⟨healthDoneAfter_eq_run deployers probe hns, ?_, ?_⟩, ?_, ?_⟩
  · exact mem_done_iff_union _ _ rfl hhstep
  · intro k l x hkl hx
    have hl := mem_done_mono _ _ hhstep k l hkl x hx
    exact ⟨hl, not_mem_probedIds_of_mem_done deployers _ x hl⟩
  · exact mem_done_iff_union _ _ rfl hcstep
  · intro k l x hkl hx
    have hl := mem_done_mono _ _ hcstep k l hkl x hx
    exact ⟨hl, not_mem_probedIds_of_mem_done deployers _ x hl⟩

/-- A concrete probe assignment for witnesses: every probe of every round
reports `{"A": true}`. -/
def probeConstA : Nat → String → List (String × Bool) := fun _ _ => [("A", true)]

/-- Witness for C1 at deployers `["A", "B"]` with every probe reporting
`{"A": true}`: the sentinel-freeness hypothesis holds and the theorem
applies; concretely the health done list after round 1 is `["A", "A"]`
(both probes of round 0 reported the identifier `"A"` as true). -/
theorem convergence_pollers_done_monotone_union_witness :
    (∀ j x, mapGet (probeConstA j x) "error" = false) ∧
    (∀ k, healthDoneAfter ["A", "B"] probeConstA k =
      .ok (healthDoneRun ["A", "B"] probeConstA k)) ∧
    healthDoneRun ["A", "B"] probeConstA 1 = ["A", "A"] := by
  refine ⟨fun _ _ => rfl, ?_, by decide⟩
  exact (convergence_pollers_done_monotone_union ["A", "B"] probeConstA).1
    (fun _ _ => rfl) |>.1

/-- C10: `cleanChecking` has no error-producing exit: whatever the
deployer set, probe results and fuel, its result is either still-looping
(`none`) or the nil error (`some (.ok ())`); it can never report an
error. -/
theorem cleanChecking_never_returns_error (deployers : List String)
    (probe : Nat → String → List (String × Bool)) (fuel : Nat) :
    cleanChecking deployers probe fuel = none ∨
      cleanChecking deployers probe fuel = some (.ok ()) := by
  rw [cleanChecking]
  generalize 0 = k
  generalize ([] : List String) = done
  induction fuel generalizing k done with
  | zero => exact Or.inl rfl
  | succ n ih =>
    rw [cleanLoop]
    split
    · exact Or.inr rfl
    · exact ih _ _

/-! ## Round boundaries of the health poller -/

/-- `reachesBoundary deployers probe isTimeout k` holds when the health
loop actually arrives at the top of round `k`: every earlier round
passed its deadline check, collected without a sentinel, and ended with
an incomplete done list. -/
def reachesBoundary (deployers : List String) (probe : Nat → String → List (String × Bool))
    (isTimeout : Nat → Bool) : Nat → Bool
  | 0 => true
  | k + 1 =>
    reachesBoundary deployers probe isTimeout k && !isTimeout k &&
      (match healthDoneAfter deployers probe (k + 1) with
       | .ok d => decide (d.length ≠ deployers.length)
       | .error _ => false)

theorem collectHealth_error_eq (rets : List (List (String × Bool))) (done : List String)
    (e : String) (h : collectHealth rets done = .error e) : e = errHealthSentinel := by
  induction rets generalizing done with
  | nil => simp [collectHealth] at h
  | cons ret rest ih =>
    rw [collectHealth] at h
    split at h
    · simp only [Except.error.injEq] at h
      exact h.symm
    · exact ih _ h

theorem collectHealth_sentinel (rets : List (List (String × Bool))) (done : List String)
    (h : ∃ ret ∈ rets, mapGet ret "error" = true) :
    collectHealth rets done = .error errHealthSentinel := by
  induction rets generalizing done with
  | nil => simp at h
  | cons ret rest ih =>
    rw [collectHealth]
    by_cases hr : mapGet ret "error" = true
    · rw [if_pos hr]
    · rw [if_neg hr]
      rcases h with ⟨r, hrmem, hrtrue⟩
      rcases List.mem_cons.mp hrmem with rfl | hrest
      · exact absurd hrtrue hr
      · exact ih _ ⟨r, hrest, hrtrue⟩

theorem healthLoop_step (deployers : List String) (probe : Nat → String → List (String × Bool))
    (isTimeout : Nat → Bool) (fuel k : Nat) (done done' : List String)
    (hT : isTimeout k = false) (hr : healthRound deployers probe k done = .ok done')
    (hlen : done'.length ≠ deployers.length) :
    healthLoop deployers probe isTimeout (fuel + 1) k done =
      healthLoop deployers probe isTimeout fuel (k + 1) done' := by
  rw [healthLoop, hT]
  simp only [Bool.false_eq_true, if_false, hr]
  rw [if_neg hlen]

theorem healthLoop_reach (deployers : List String) (probe : Nat → String → List (String × Bool))
    (isTimeout : Nat → Bool) (k : Nat) (done : List String)
    (hreach : reachesBoundary deployers probe isTimeout k = true)
    (hdone : healthDoneAfter deployers probe k = .ok done) :
    ∀ fuel, k ≤ fuel → healthLoop deployers probe isTimeout fuel 0 [] =
      healthLoop deployers probe isTimeout (fuel - k) k done := by
  induction k generalizing done with
  | zero =>
    intro fuel _
    rw [healthDoneAfter] at hdone
    simp only [Except.ok.injEq] at hdone
    rw [← hdone, Nat.sub_zero]
  | succ n ih =>
    intro fuel hfuel
    rw [reachesBoundary, Bool.and_eq_true, Bool.and_eq_true] at hreach
    obtain ⟨⟨hrn, hTn⟩, hmatch⟩ := hreach
    have hbind := hdone
    rw [healthDoneAfter] at hbind
    cases hn : healthDoneAfter deployers probe n with
    | error e => rw [hn] at hbind; exact absurd hbind (by simp [Except.bind])
    | ok dn =>
      rw [hn] at hbind
      have hround : healthRound deployers probe n dn = .ok done := hbind
      have hlen : done.length ≠ deployers.length := by
        rw [hdone] at hmatch
        exact of_decide_eq_true hmatch
      have hTn' : isTimeout n = false := by simpa using hTn
      rw [ih dn hrn hn fuel (Nat.le_of_succ_le hfuel)]
      have hfk : fuel - n = (fuel - (n + 1)) + 1 := by omega
      rw [hfk, healthLoop_step deployers probe isTimeout _ n dn done hTn' hround hlen]

theorem reachesBoundary_incomplete (deployers : List String)
    (probe : Nat → String → List (String × Bool)) (isTimeout : Nat → Bool)
    (hne : deployers ≠ []) (m : Nat)
    (h : reachesBoundary deployers probe isTimeout m = true) :
    ∃ d, healthDoneAfter deployers probe m = .ok d ∧ d.length ≠ deployers.length := by
  cases m with
  | zero =>
    refine ⟨[], rfl, fun hl => hne ?_⟩
    exact List.eq_nil_of_length_eq_zero hl.symm
  | succ n =>
    rw [reachesBoundary, Bool.and_eq_true] at h
    rcases h with ⟨_, hmatch⟩
    cases hn : healthDoneAfter deployers probe (n + 1) with
    | error e => rw [hn] at hmatch; simp at hmatch
    | ok d =>
      rw [hn] at hmatch
      exact ⟨d, rfl, of_decide_eq_true hmatch⟩

theorem healthLoop_timeout_exists (deployers : List String)
    (probe : Nat → String → List (String × Bool)) (isTimeout : Nat → Bool) :
    ∀ fuel k done, healthDoneAfter deployers probe k = .ok done →
      reachesBoundary deployers probe isTimeout k = true →
      healthLoop deployers probe isTimeout fuel k done = some (.error errTimeoutExceeded) →
      ∃ m, k ≤ m ∧ m < k + fuel ∧ reachesBoundary deployers probe isTimeout m = true ∧
        isTimeout m = true := by
  intro fuel
  induction fuel with
  | zero => intro k done _ _ h; exact absurd h (by rw [healthLoop]; simp)
  | succ n ih =>
    intro k done hdone hreach h
    rw [healthLoop] at h
    split at h
    · rename_i hT
      exact ⟨k, Nat.le_refl k, by omega, hreach, hT⟩
    · rename_i hT
      rw [Bool.not_eq_true] at hT
      split at h
      · rename_i e hround
        have he : e = errHealthSentinel := collectHealth_error_eq _ _ e hround
        simp only [Option.some.injEq, Except.error.injEq] at h
        rw [he] at h
        exact absurd h (by decide)
      · rename_i done' hround
        split at h
        · simp at h
        · rename_i hlen
          have hdone' : healthDoneAfter deployers probe (k + 1) = .ok done' := by
            rw [healthDoneAfter, hdone, Except.bind, hround]
          have hreach' : reachesBoundary deployers probe isTimeout (k + 1) = true := by
            rw [reachesBoundary, Bool.and_eq_true, Bool.and_eq_true, hdone']
            exact ⟨⟨hreach, by rw [hT]; rfl⟩, decide_eq_true hlen⟩
          obtain ⟨m, hm1, hm2, hm3, hm4⟩ := ih (k + 1) done' hdone' hreach' h
          exact ⟨m, by omega, by omega, hm3, hm4⟩

theorem healthLoop_timeout_of (deployers : List String)
    (probe : Nat → String → List (String × Bool)) (isTimeout : Nat → Bool)
    (k fuel : Nat) (done : List String) (hk : k < fuel)
    (hreach : reachesBoundary deployers probe isTimeout k = true)
    (hdone : healthDoneAfter deployers probe k = .ok done) (hT : isTimeout k = true) :
    healthLoop deployers probe isTimeout fuel 0 [] = some (.error errTimeoutExceeded) := by
  rw [healthLoop_reach deployers probe isTimeout k done hreach hdone fuel (Nat.le_of_lt hk)]
  have hfk : fuel - k = (fuel - k - 1) + 1 := by omega
  rw [hfk, healthLoop, hT]
  rfl

/-- C2 (amended): for a nonempty deployer set, health convergence
returns the timeout error exactly when some actually-reached round
boundary has elapsed time past the timeout while the accumulated done
list is still shorter than the deployer list; the deadline reference is
the fixed `startTimestamp` captured before the first round.  (For the
empty deployer set the code returns a timeout error whenever the
deadline has already elapsed at entry even though the empty done-set
trivially equals the deployer set; see the counterexample.) -/
theorem doHealthchecking_timeout_iff (deployers : List String)
    (probe : Nat → String → List (String × Bool)) (startTimestamp timeout : Int)
    (clock : Nat → Int) (fuel : Nat) (hne : deployers ≠ []) :
    doHealthchecking deployers probe startTimestamp timeout clock fuel =
        some (.error errTimeoutExceeded) ↔
      ∃ k, k < fuel ∧
        reachesBoundary deployers probe
          (fun j => CheckTimeout startTimestamp timeout (clock j)) k = true ∧
        CheckTimeout startTimestamp timeout (clock k) = true ∧
        ∃ d, healthDoneAfter deployers probe k = .ok d ∧ d.length ≠ deployers.length := by
  rw [doHealthchecking]
  constructor
  · intro h
    obtain ⟨m, _, hm2, hm3, hm4⟩ :=
      healthLoop_timeout_exists deployers probe _ fuel 0 [] rfl rfl h
    obtain ⟨d, hd, hdl⟩ := reachesBoundary_incomplete deployers probe _ hne m hm3
    exact ⟨m, by omega, hm3, hm4, d, hd, hdl⟩
  · rintro ⟨k, hk, hreach, hT, d, hd, _⟩
    exact healthLoop_timeout_of deployers probe _ k fuel d hk hreach hd hT

/-- Counterexample to C2 as stated: with an empty deployer set and a
deadline already elapsed at entry, `doHealthchecking` returns the
timeout error although the (empty) done-set already equals the full
deployer set — the "only if" direction of the claim fails. -/
theorem doHealthchecking_timeout_iff_counterexample :
    doHealthchecking [] (fun _ _ => []) 0 0 (fun _ => 1) 1 =
        some (.error errTimeoutExceeded) ∧
      healthDoneAfter [] (fun _ _ => []) 0 = .ok [] ∧
      List.length ([] : List String) = List.length ([] : List String) :=
  ⟨rfl, rfl, rfl⟩

/-- A probe for the C2 witness: every round reports the single stack
`"A"` as not yet healthy. -/
def probeNeverA : Nat → String → List (String × Bool) := fun _ _ => [("A", false)]

/-- A clock for the C2 witness: round boundary `k` happens at time
`20 * k`, so with start 0 and timeout 10 the deadline is first exceeded
at the boundary of round 1. -/
def clockBy20 : Nat → Int := fun k => 20 * k

/-- Witness for C2 at the single deployer `["A"]` that never becomes
healthy: the nonemptiness hypothesis is discharged and the iff holds;
concretely the run with 5 rounds of fuel times out. -/
theorem doHealthchecking_timeout_iff_witness :
    (["A"] : List String) ≠ [] ∧
    (doHealthchecking ["A"] probeNeverA 0 10 clockBy20 5 =
        some (.error errTimeoutExceeded) ↔
      ∃ k, k < 5 ∧
        reachesBoundary ["A"] probeNeverA (fun j => CheckTimeout 0 10 (clockBy20 j)) k = true ∧
        CheckTimeout 0 10 (clockBy20 k) = true ∧
        ∃ d, healthDoneAfter ["A"] probeNeverA k = .ok d ∧
          d.length ≠ (["A"] : List String).length) := by
  exact ⟨by decide, doHealthchecking_timeout_iff ["A"] probeNeverA 0 10 clockBy20 5 (by decide)⟩

/-- C3: if the health loop actually reaches round `k` (accumulated done
list `done`), the deadline is not yet exceeded there, and any one of the
result maps of round `k`'s probes carries the `"error"` sentinel with
value true, then the whole health convergence run returns the sentinel
error — whatever every other probe of that round (and of any later
round) reports. -/
theorem doHealthchecking_sentinel_aborts (deployers : List String)
    (probe : Nat → String → List (String × Bool)) (startTimestamp timeout : Int)
    (clock : Nat → Int) (k fuel : Nat) (done : List String) (hk : k < fuel)
    (hreach : reachesBoundary deployers probe
      (fun j => CheckTimeout startTimestamp timeout (clock j)) k = true)
    (hdone : healthDoneAfter deployers probe k = .ok done)
    (hT : CheckTimeout startTimestamp timeout (clock k) = false)
    (hsent : ∃ ret ∈ (probedIds deployers done).map (probe k), mapGet ret "error" = true) :
    doHealthchecking deployers probe startTimestamp timeout clock fuel =
      some (.error errHealthSentinel) := by
  rw [doHealthchecking,
    healthLoop_reach deployers probe _ k done hreach hdone fuel (Nat.le_of_lt hk)]
  have hfk : fuel - k = (fuel - k - 1) + 1 := by omega
  rw [hfk, healthLoop, hT]
  simp only [Bool.false_eq_true, if_false, healthRound,
    collectHealth_sentinel _ done hsent]

/-- A probe for the C3 witness: deployer `"A"` reports the error
sentinel, deployer `"B"` reports itself healthy. -/
def probeSentinelA : Nat → String → List (String × Bool) := fun _ d =>
  if d = "A" then [("error", true)] else [(d, true)]

/-- Witness for C3: two deployers `["A", "B"]`, round 0 reached with no
deadline excess, `"A"`'s probe result carrying the sentinel while
`"B"`'s reports healthy; the run returns the sentinel error. -/
theorem doHealthchecking_sentinel_aborts_witness :
    (0 < 3 ∧ reachesBoundary ["A", "B"] probeSentinelA
        (fun j => CheckTimeout 0 100 ((fun _ => (1 : Int)) j)) 0 = true ∧
      healthDoneAfter ["A", "B"] probeSentinelA 0 = .ok [] ∧
      CheckTimeout 0 100 1 = false ∧
      (∃ ret ∈ (probedIds ["A", "B"] []).map (probeSentinelA 0), mapGet ret "error" = true)) ∧
    doHealthchecking ["A", "B"] probeSentinelA 0 100 (fun _ => 1) 3 =
      some (.error errHealthSentinel) := by
  refine ⟨⟨by decide, rfl, rfl, rfl, ⟨[("error", true)], ?_, rfl⟩⟩, ?_⟩
  · exact List.mem_cons_self _ _
  · exact doHealthchecking_sentinel_aborts ["A", "B"] probeSentinelA 0 100 (fun _ => 1) 0 3 []
      (by decide) rfl rfl rfl ⟨[("error", true)], List.mem_cons_self _ _, rfl⟩

/-! ## Termination convergence (claim C4)

Per the Stack Deployer contract (spec §4.1), `TerminateChecking` returns
the single-entry map `{stackID: bool}` keyed by the deployer's own
stable stack name; `ownNameProbe b` is exactly that probe shape, with
`b k d` the boolean deployer `d` reports in round `k`. -/

/-- The contract-conforming probe: deployer `d` sends `{d: b k d}` in
round `k`. -/
def ownNameProbe (b : Nat → String → Bool) : Nat → String → List (String × Bool) :=
  fun k d => [(d, b k d)]

theorem trueKeysClean_ownNameProbe (b : Nat → String → Bool) (k : Nat) (d : String) :
    trueKeysClean (ownNameProbe b k d) = if b k d then [d] else [] := by
  rw [ownNameProbe, trueKeysClean]
  cases h : b k d <;> simp [h]

theorem trueIdsClean_ownNameProbe (b : Nat → String → Bool)
    (deployers done : List String) (k : Nat) :
    trueIdsClean deployers (ownNameProbe b) done k =
      (probedIds deployers done).filter (fun d => b k d) := by
  rw [trueIdsClean]
  induction probedIds deployers done with
  | nil => rfl
  | cons d rest ih =>
    rw [List.map_cons, List.map_cons, List.flatten_cons, ih,
      trueKeysClean_ownNameProbe, List.filter_cons]
    cases h : b k d <;> simp [h]

theorem mem_probedIds (deployers done : List String) (x : String) :
    x ∈ probedIds deployers done ↔ x ∈ deployers ∧ x ∉ done := by
  rw [probedIds]
  simp [IsStringInArray, List.mem_filter]

theorem probedIds_nodup (deployers done : List String) (h : deployers.Nodup) :
    (probedIds deployers done).Nodup :=
  List.Nodup.filter _ h

/-- When the accumulated list is a duplicate-free sublist-by-membership
of the deployer list, appending all remaining (not-yet-done) deployers
yields a list of exactly the deployer count. -/
theorem length_append_remaining (deployers done : List String) (hD : deployers.Nodup)
    (hdn : done.Nodup) (hsub : ∀ x ∈ done, x ∈ deployers) :
    (done ++ probedIds deployers done).length = deployers.length := by
  have hn : (done ++ probedIds deployers done).Nodup := by
    rw [List.nodup_append]
    refine ⟨hdn, probedIds_nodup deployers done hD, fun x hx hx' => ?_⟩
    exact ((mem_probedIds deployers done x).mp hx').2 hx
  have hmem : ∀ x, x ∈ done ++ probedIds deployers done ↔ x ∈ deployers := by
    intro x
    rw [List.mem_append, mem_probedIds]
    constructor
    · rintro (hx | ⟨hx, _⟩)
      · exact hsub x hx
      · exact hx
    · intro hx
      by_cases hxd : x ∈ done
      · exact Or.inl hxd
      · exact Or.inr ⟨hx, hxd⟩
  rw [← List.toFinset_card_of_nodup hn, ← List.toFinset_card_of_nodup hD]
  congr 1
  ext x
  simp only [List.mem_toFinset]
  exact hmem x

theorem cleanDoneAfter_inv (deployers : List String) (b : Nat → String → Bool)
    (hD : deployers.Nodup) (k : Nat) :
    (cleanDoneAfter deployers (ownNameProbe b) k).Nodup ∧
      ∀ x ∈ cleanDoneAfter deployers (ownNameProbe b) k, x ∈ deployers := by
  induction k with
  | zero => exact ⟨List.nodup_nil, fun x hx => absurd hx (List.not_mem_nil x)⟩
  | succ n ih =>
    rw [cleanDoneAfter, cleanRound_eq, trueIdsClean_ownNameProbe]
    have hfsub : ∀ x ∈ (probedIds deployers (cleanDoneAfter deployers (ownNameProbe b) n)).filter
        (fun d => b n d), x ∈ deployers := by
      intro x hx
      exact ((mem_probedIds _ _ x).mp (List.mem_of_mem_filter hx)).1
    constructor
    · rw [List.nodup_append]
      refine ⟨ih.1, List.Nodup.filter _ (probedIds_nodup _ _ hD), fun x hx hx' => ?_⟩
      exact ((mem_probedIds _ _ x).mp (List.mem_of_mem_filter hx')).2 hx
    · intro x hx
      rcases List.mem_append.mp hx with hx | hx
      · exact ih.2 x hx
      · exact hfsub x hx

/-- C4: termination convergence performs no deadline check — the
embedded `cleanChecking` takes no clock or timeout input at all, unlike
`doHealthchecking` — and for each contract-conforming probe sequence
over duplicate-free stack names: once every deployer reports true from
some round `K` on, the loop returns success (the nil error, never a
timeout) within `K + 1` rounds, however much time those rounds took;
while if some deployer never reports true the loop runs forever (`none`
at every fuel). -/
theorem cleanChecking_no_deadline (deployers : List String) (b : Nat → String → Bool)
    (hD : deployers.Nodup) :
    (∀ K, (∀ k, K ≤ k → ∀ d ∈ deployers, b k d = true) →
      ∀ fuel, K + 1 ≤ fuel →
        cleanChecking deployers (ownNameProbe b) fuel = some (.ok ())) ∧
    (∀ d₀ ∈ deployers, (∀ k, b k d₀ = false) →
      ∀ fuel, cleanChecking deployers (ownNameProbe b) fuel = none) := by
  constructor
  · intro K hb fuel hfuel
    rw [cleanChecking]
    have main : ∀ fuel k done, done.Nodup → (∀ x ∈ done, x ∈ deployers) →
        K + 1 ≤ fuel + k → 1 ≤ fuel →
        cleanLoop deployers (ownNameProbe b) fuel k done = some (.ok ()) := by
      intro fuel
      induction fuel with
      | zero => intro k done _ _ _ h1; exact absurd h1 (by omega)
      | succ n ih =>
        intro k done hdn hsub hK _
        rw [cleanLoop]
        split
        · rfl
        · rename_i hlen
          by_cases hkK : K ≤ k
          · exfalso
            apply hlen
            rw [cleanRound_eq, trueIdsClean_ownNameProbe]
            have hfull : (probedIds deployers done).filter (fun d => b k d) =
                probedIds deployers done := by
              apply List.filter_eq_self.mpr
              intro d hd
              exact hb k hkK d ((mem_probedIds _ _ d).mp hd).1
            rw [hfull]
            exact length_append_remaining deployers done hD hdn hsub
          · have hdone' := cleanRound_eq deployers (ownNameProbe b) k done
            rw [trueIdsClean_ownNameProbe] at hdone'
            rw [hdone']
            apply ih (k + 1)
            · rw [List.nodup_append]
              refine ⟨hdn, List.Nodup.filter _ (probedIds_nodup _ _ hD), fun x hx hx' => ?_⟩
              exact ((mem_probedIds _ _ x).mp (List.mem_of_mem_filter hx')).2 hx
            · intro x hx
              rcases List.mem_append.mp hx with hx | hx
              · exact hsub x hx
              · exact ((mem_probedIds _ _ x).mp (List.mem_of_mem_filter hx)).1
            · omega
            · omega
    exact main fuel 0 [] List.nodup_nil (fun x hx => absurd hx (List.not_mem_nil x))
      (by omega) (by omega)
  · intro d₀ hd₀ hnever fuel
    rw [cleanChecking]
    have main : ∀ fuel k done, done.Nodup → (∀ x ∈ done, x ∈ deployers) → d₀ ∉ done →
        cleanLoop deployers (ownNameProbe b) fuel k done = none := by
      intro fuel
      induction fuel with
      | zero => intro k done _ _ _; rfl
      | succ n ih =>
        intro k done hdn hsub hd₀done
        have hdone' := cleanRound_eq deployers (ownNameProbe b) k done
        rw [trueIdsClean_ownNameProbe] at hdone'
        have hd₀' : d₀ ∉ cleanRound deployers (ownNameProbe b) k done := by
          rw [hdone']
          intro hx
          rcases List.mem_append.mp hx with hx | hx
          · exact hd₀done hx
          · have := (List.mem_filter.mp hx).2
            rw [hnever k] at this
            exact absurd this (by decide)
        have hnodup' : (cleanRound deployers (ownNameProbe b) k done).Nodup := by
          rw [hdone', List.nodup_append]
          refine ⟨hdn, List.Nodup.filter _ (probedIds_nodup _ _ hD), fun x hx hx' => ?_⟩
          exact ((mem_probedIds _ _ x).mp (List.mem_of_mem_filter hx')).2 hx
        have hsub' : ∀ x ∈ cleanRound deployers (ownNameProbe b) k done, x ∈ deployers := by
          rw [hdone']
          intro x hx
          rcases List.mem_append.mp hx with hx | hx
          · exact hsub x hx
          · exact ((mem_probedIds _ _ x).mp (List.mem_of_mem_filter hx)).1
        have hlen : (cleanRound deployers (ownNameProbe b) k done).length ≠
            deployers.length := by
          intro hlen
          have hcard : (cleanRound deployers (ownNameProbe b) k done).toFinset ⊆
              deployers.toFinset := by
            intro x hx
            rw [List.mem_toFinset] at hx ⊢
            exact hsub' x hx
          have hd₀in : d₀ ∈ deployers.toFinset := List.mem_toFinset.mpr hd₀
          have hd₀out : d₀ ∉ (cleanRound deployers (ownNameProbe b) k done).toFinset := by
            rw [List.mem_toFinset]
            exact hd₀'
          have hlt : (cleanRound deployers (ownNameProbe b) k done).toFinset.card <
              deployers.toFinset.card :=
            Finset.card_lt_card (Finset.ssubset_iff_of_subset hcard |>.mpr
              ⟨d₀, hd₀in, hd₀out⟩)
          rw [List.toFinset_card_of_nodup hnodup', List.toFinset_card_of_nodup hD, hlen]
              at hlt
          exact lt_irrefl _ hlt
        rw [cleanLoop]
        split
        · rename_i hc
          exact absurd hc hlen
        · exact ih (k + 1) _ hnodup' hsub' hd₀'
    exact main fuel 0 [] List.nodup_nil (fun x hx => absurd hx (List.not_mem_nil x))
      (fun hx => absurd hx (List.not_mem_nil d₀))

/-- Witness for C4: deployers `["A", "B"]` (duplicate-free).  With
probes that all report true from round 1 on, two rounds of fuel yield
success; with probes that never report true, any fuel yields `none`. -/
theorem cleanChecking_no_deadline_witness :
    ((["A", "B"] : List String).Nodup ∧
      (∀ k, 1 ≤ k → ∀ d ∈ (["A", "B"] : List String), (fun k _ => decide (1 ≤ k)) k d = true) ∧
      cleanChecking ["A", "B"] (ownNameProbe (fun k _ => decide (1 ≤ k))) 2 = some (.ok ())) ∧
    ((∀ k, (fun _ _ => false : Nat → String → Bool) k "A" = false) ∧
      cleanChecking ["A", "B"] (ownNameProbe (fun _ _ => false)) 7 = none) := by
  refine ⟨⟨by decide, fun k hk d _ => decide_eq_true hk, ?_⟩, fun _ => rfl, ?_⟩
  · exact (cleanChecking_no_deadline ["A", "B"] (fun k _ => decide (1 ≤ k)) (by decide)).1
      1 (fun k hk d _ => decide_eq_true hk) 2 (by omega)
  · exact (cleanChecking_no_deadline ["A", "B"] (fun _ _ => false) (by decide)).2
      "A" (List.mem_cons_self _ _) (fun _ => rfl) 7

/-! ## Mode flows: Deploy, Delete, Update

The per-stack lifecycle operations of the Stack Deployer collaborator
are external calls; their success/error outcomes are inputs of the
embedding (a function from action and stack name to `Except`).  The
flows record an event trace: which deployers were constructed, which
per-stack actions were attempted, and whether the mutating capacity
update was applied; failed per-stack actions are collected as log lines,
mirroring `r.Logger.Errorf`.  The Go goroutine fan-out of each phase
joined by `wg.Wait()` is modelled by attempting every stack's actions of
the phase (errors never short-circuit: the goroutine bodies log and
continue, rurnner.go lines 322-394). -/

/-- The per-stack lifecycle operations invoked by the mode flows. -/
inductive PhaseAction where
  | checkPrevious
  | deployAction
  | skipDeployStep
  | finishAdditionalWork
  | triggerLifecycleCallbacks
  | cleanPreviousVersion
  | gatherMetrics
  | runAPITest
deriving DecidableEq

/-- Observable events of a mode flow run. -/
inductive Event where
  | deployerConstructed (stack : String)
  | attempted (a : PhaseAction) (stack : String)
  | capacityUpdateApplied
deriving DecidableEq

/-- `SkipDeployStep` returns nothing in Go; every other action's outcome
comes from the supplied assignment. -/
def actionResult (outcomes : PhaseAction → String → Except String Unit) :
    PhaseAction → String → Except String Unit
  | .skipDeployStep, _ => .ok ()
  | a, s => outcomes a s

/-- The attempts made by one barrier phase: every listed action for
every stack, unconditionally. -/
def phaseAttempts (stackNames : List String) (acts : List PhaseAction) : List Event :=
  (stackNames.map (fun s => acts.map (fun a => Event.attempted a s))).flatten

/-- The log lines produced by one barrier phase: one per failed action. -/
def phaseLogs (stackNames : List String) (acts : List PhaseAction)
    (outcomes : PhaseAction → String → Except String Unit) : List String :=
  (stackNames.map (fun s => acts.filterMap (fun a =>
    match actionResult outcomes a s with
    | .ok () => none
    | .error e => some e))).flatten

/-- The error `Runner.LocalCheck` returns when the operator declines. -/
def declineMsg : String := "you declined to run command"

/-- `Runner.LocalCheck` from rurnner.go: on a local (darwin) invocation
without the auto-apply flag, ask the operator to continue; decline is an
error. -/
def LocalCheck (goosDarwin autoApply askContinue : Bool) : Except String Unit :=
  if goosDarwin && !autoApply then
    if !askContinue then .error declineMsg else .ok ()
  else .ok ()

/-- The inputs of `Runner.Deploy` that the embedding treats as external:
the filtered stack list (stack names), the confirmation-prompt context,
the summary-print and metrics-storage outcomes, the probe behaviour and
clock driving the two convergence polls, and their fuels. -/
structure DeployEnv where
  stackNames : List String
  goosDarwin : Bool
  autoApply : Bool
  askContinue : Bool
  printSummary : Except String Unit
  metricsEnabled : Bool
  checkStorage : Except String Unit
  healthProbe : Nat → String → List (String × Bool)
  cleanProbe : Nat → String → List (String × Bool)
  startTimestamp : Int
  timeout : Int
  clock : Nat → Int
  healthFuel : Nat
  cleanFuel : Nat

/-- Deploy-mode phase 1: `[CheckPrevious → Deploy]` per stack. -/
def deployPhase1Actions : List PhaseAction := [.checkPrevious, .deployAction]

/-- Deploy-mode phase 2: the post-healthy actions per stack. -/
def deployPhase2Actions : List PhaseAction :=
  [.finishAdditionalWork, .triggerLifecycleCallbacks, .cleanPreviousVersion]

/-- `Runner.Deploy` from rurnner.go (lines 260-394): confirmation,
summary, optional metrics-storage check, deployer construction, phase 1,
health convergence (fatal on error), phase 2, termination convergence
(fatal on error), metrics gathering, API tests.  The result is `none`
when a convergence poll diverges within its fuel, otherwise the Go
return value together with the event trace and the error log. -/
def Deploy (env : DeployEnv) (outcomes : PhaseAction → String → Except String Unit) :
    Option (Except String Unit × List Event × List String) :=
  match LocalCheck env.goosDarwin env.autoApply env.askContinue with
  | .error e => some (.error e, [], [])
  | .ok () =>
  match env.printSummary with
  | .error e => some (.error e, [], [])
  | .ok () =>
  match (if env.metricsEnabled then env.checkStorage else .ok ()) with
  | .error e => some (.error e, [], [])
  | .ok () =>
  let t1 := env.stackNames.map Event.deployerConstructed ++
    phaseAttempts env.stackNames deployPhase1Actions
  let l1 := phaseLogs env.stackNames deployPhase1Actions outcomes
  match doHealthchecking env.stackNames env.healthProbe env.startTimestamp env.timeout
      env.clock env.healthFuel with
  | none => none
  | some (.error e) => some (.error e, t1, l1)
  | some (.ok ()) =>
  let t2 := t1 ++ phaseAttempts env.stackNames deployPhase2Actions
  let l2 := l1 ++ phaseLogs env.stackNames deployPhase2Actions outcomes
  match cleanChecking env.stackNames env.cleanProbe env.cleanFuel with
  | none => none
  | some (.error e) => some (.error e, t2, l2)
  | some (.ok ()) =>
  let t3 := t2 ++ phaseAttempts env.stackNames [.gatherMetrics]
  let l3 := l2 ++ phaseLogs env.stackNames [.gatherMetrics] outcomes
  let t4 := t3 ++ phaseAttempts env.stackNames [.runAPITest]
  let l4 := l3 ++ phaseLogs env.stackNames [.runAPITest] outcomes
  some (.ok (), t4, l4)

/-- The external inputs of `Runner.Delete`. -/
structure DeleteEnv where
  stackNames : List String
  goosDarwin : Bool
  autoApply : Bool
  askContinue : Bool
  metricsEnabled : Bool
  checkStorage : Except String Unit
  cleanProbe : Nat → String → List (String × Bool)
  cleanFuel : Nat

/-- Delete-mode main phase: `[CheckPrevious → SkipDeployStep →
TriggerLifecycleCallbacks → CleanPreviousVersion]` per stack. -/
def deleteMainActions : List PhaseAction :=
  [.checkPrevious, .skipDeployStep, .triggerLifecycleCallbacks, .cleanPreviousVersion]

/-- `Runner.Delete` from rurnner.go (lines 397-481). -/
def Delete (env : DeleteEnv) (outcomes : PhaseAction → String → Except String Unit) :
    Option (Except String Unit × List Event × List String) :=
  match LocalCheck env.goosDarwin env.autoApply env.askContinue with
  | .error e => some (.error e, [], [])
  | .ok () =>
  match (if env.metricsEnabled then env.checkStorage else .ok ()) with
  | .error e => some (.error e, [], [])
  | .ok () =>
  let t1 := env.stackNames.map Event.deployerConstructed ++
    phaseAttempts env.stackNames deleteMainActions
  let l1 := phaseLogs env.stackNames deleteMainActions outcomes
  match cleanChecking env.stackNames env.cleanProbe env.cleanFuel with
  | none => none
  | some (.error e) => some (.error e, t1, l1)
  | some (.ok ()) =>
  let t2 := t1 ++ phaseAttempts env.stackNames [.gatherMetrics]
  let l2 := l1 ++ phaseLogs env.stackNames [.gatherMetrics] outcomes
  some (.ok (), t2, l2)

/-- The external inputs of `Runner.Update`: the inspector's read path
(stack selection and fetched capacity plus group name), the capacity
overrides, the prompt context, the mutating `i.Update()` call's outcome,
and the health poll's drivers. -/
structure UpdateEnv where
  goosDarwin : Bool
  autoApply : Bool
  askContinue : Bool
  selectStack : Except String Unit
  stackInfo : Except String (Capacity × String)
  overrides : CapacityOverrides
  applyUpdate : Except String Unit
  healthProbe : Nat → String → List (String × Bool)
  startTimestamp : Int
  timeout : Int
  clock : Nat → Int
  healthFuel : Nat

/-- `Runner.Update` from rurnner.go (lines 517-579): select the live
group, fetch its capacity, compute and validate the new triple, confirm
with the operator, apply the update, construct one deployer for the
synthetic stack, and run a health-convergence pass. -/
def Update (env : UpdateEnv) : Option (Except String Unit × List Event) :=
  match env.selectStack with
  | .error e => some (.error e, [])
  | .ok () =>
  match env.stackInfo with
  | .error e => some (.error e, [])
  | .ok (oldCapacity, stackName) =>
  let newCapacity := updateNewCapacity env.overrides oldCapacity
  match CheckUpdateInformation oldCapacity newCapacity with
  | .error e => some (.error e, [])
  | .ok () =>
  match LocalCheck env.goosDarwin env.autoApply env.askContinue with
  | .error e => some (.error e, [])
  | .ok () =>
  match env.applyUpdate with
  | .error e => some (.error e, [Event.capacityUpdateApplied])
  | .ok () =>
  let t := [Event.capacityUpdateApplied, Event.deployerConstructed stackName]
  match doHealthchecking [stackName] env.healthProbe env.startTimestamp env.timeout
      env.clock env.healthFuel with
  | none => none
  | some (.error e) => some (.error e, t)
  | some (.ok ()) => some (.ok (), t)

theorem mem_phaseAttempts (stackNames : List String) (acts : List PhaseAction)
    (s : String) (a : PhaseAction) (hs : s ∈ stackNames) (ha : a ∈ acts) :
    Event.attempted a s ∈ phaseAttempts stackNames acts := by
  rw [phaseAttempts, List.mem_flatten]
  exact ⟨acts.map (fun a => Event.attempted a s), List.mem_map_of_mem _ hs,
    List.mem_map_of_mem _ ha⟩

/-- C5: in the deploy flow, per-stack action outcomes influence only the
log lines: the returned verdict and the attempt trace are identical for
any two outcome assignments (so the verdict depends only on the
confirmation check, the upfront validation steps, and the two
convergence polls); and whenever the flow reaches a phase, every stack's
every action of that phase is attempted, regardless of any per-stack
failures in the same or earlier phases. -/
theorem deploy_per_stack_failures_confined (env : DeployEnv)
    (o1 o2 : PhaseAction → String → Except String Unit) :
    (Deploy env o1).map (fun r => (r.1, r.2.1)) =
      (Deploy env o2).map (fun r => (r.1, r.2.1)) ∧
    (LocalCheck env.goosDarwin env.autoApply env.askContinue = .ok () →
      env.printSummary = .ok () →
      (if env.metricsEnabled then env.checkStorage else .ok ()) = .ok () →
      ∀ v t l, Deploy env o1 = some (v, t, l) →
        (∀ s ∈ env.stackNames, ∀ a ∈ deployPhase1Actions, Event.attempted a s ∈ t) ∧
        (doHealthchecking env.stackNames env.healthProbe env.startTimestamp env.timeout
            env.clock env.healthFuel = some (.ok ()) →
          (∀ s ∈ env.stackNames, ∀ a ∈ deployPhase2Actions, Event.attempted a s ∈ t) ∧
          (cleanChecking env.stackNames env.cleanProbe env.cleanFuel = some (.ok ()) →
            ∀ s ∈ env.stackNames,
              Event.attempted .gatherMetrics s ∈ t ∧
                Event.attempted .runAPITest s ∈ t))) := by
  constructor
  · unfold Deploy
    cases LocalCheck env.goosDarwin env.autoApply env.askContinue with
    | error e => rfl
    | ok u =>
      cases u
      cases env.printSummary with
      | error e => rfl
      | ok u =>
        cases u
        cases (if env.metricsEnabled then env.checkStorage else Except.ok ()) with
        | error e => rfl
        | ok u =>
          cases u
          cases doHealthchecking env.stackNames env.healthProbe env.startTimestamp
              env.timeout env.clock env.healthFuel with
          | none => rfl
          | some hr =>
            cases hr with
            | error e => rfl
            | ok u =>
              cases u
              cases cleanChecking env.stackNames env.cleanProbe env.cleanFuel with
              | none => rfl
              | some cr =>
                cases cr with
                | error e => rfl
                | ok u => cases u; rfl
  · intro hLC hPS hMS v t l heq
    cases hh : doHealthchecking env.stackNames env.healthProbe env.startTimestamp
        env.timeout env.clock env.healthFuel with
    | none =>
      simp only [Deploy, hLC, hPS, hMS, hh] at heq
      exact Option.noConfusion heq
    | some hr =>
      cases hr with
      | error e =>
        simp only [Deploy, hLC, hPS, hMS, hh, Option.some.injEq, Prod.mk.injEq] at heq
        obtain ⟨-, ht, -⟩ := heq
        subst ht
        refine ⟨fun s hs a ha => ?_, fun hok => ?_⟩
        · exact List.mem_append_right _ (mem_phaseAttempts _ _ s a hs ha)
        · exact absurd hok (by simp)
      | ok u =>
        cases u
        cases hc : cleanChecking env.stackNames env.cleanProbe env.cleanFuel with
        | none =>
          simp only [Deploy, hLC, hPS, hMS, hh, hc] at heq
          exact Option.noConfusion heq
        | some cr =>
          cases cr with
          | error e =>
            simp only [Deploy, hLC, hPS, hMS, hh, hc, Option.some.injEq,
              Prod.mk.injEq] at heq
            obtain ⟨-, ht, -⟩ := heq
            subst ht
            refine ⟨fun s hs a ha => ?_, fun _ => ⟨fun s hs a ha => ?_, fun hok => ?_⟩⟩
            · exact List.mem_append_left _
                (List.mem_append_right _ (mem_phaseAttempts _ _ s a hs ha))
            · exact List.mem_append_right _ (mem_phaseAttempts _ _ s a hs ha)
            · exact absurd hok (by simp)
          | ok u =>
            cases u
            simp only [Deploy, hLC, hPS, hMS, hh, hc, Option.some.injEq,
              Prod.mk.injEq] at heq
            obtain ⟨-, ht, -⟩ := heq
            subst ht
            refine ⟨fun s hs a ha => ?_,
              fun _ => ⟨fun s hs a ha => ?_, fun _ s hs => ⟨?_, ?_⟩⟩⟩
            · exact List.mem_append_left _ (List.mem_append_left _
                (List.mem_append_left _ (List.mem_append_right _
                  (mem_phaseAttempts _ _ s a hs ha))))
            · exact List.mem_append_left _ (List.mem_append_left _
                (List.mem_append_right _ (mem_phaseAttempts _ _ s a hs ha)))
            · exact List.mem_append_left _ (List.mem_append_right _
                (mem_phaseAttempts _ _ s .gatherMetrics hs (by decide)))
            · exact List.mem_append_right _
                (mem_phaseAttempts _ _ s .runAPITest hs (by decide))

/-- A deploy environment for the C5 witness: two stacks, non-darwin (so
the prompt is skipped), summary and storage fine, every probe of both
polls reporting its own stack true, fuel 1 each, deadline far away. -/
def envDeployW : DeployEnv :=
  ⟨["A", "B"], false, false, false, .ok (), false, .ok (),
    ownNameProbe (fun _ _ => true), ownNameProbe (fun _ _ => true), 0, 100, fun _ => 1, 1, 1⟩

/-- Outcomes where every per-stack action of every stack fails. -/
def oFailW : PhaseAction → String → Except String Unit := fun _ _ => .error "boom"

/-- Outcomes where every per-stack action succeeds. -/
def oOkW : PhaseAction → String → Except String Unit := fun _ _ => .ok ()

/-- Witness for C5: with all per-stack actions failing, the deploy flow
still attempts stack B's deploy action and stack A's API test (and its
verdict and trace agree with the all-success run). -/
theorem deploy_per_stack_failures_confined_witness :
    ((Deploy envDeployW oFailW).map (fun r => (r.1, r.2.1)) =
      (Deploy envDeployW oOkW).map (fun r => (r.1, r.2.1))) ∧
    (∃ v t l, Deploy envDeployW oFailW = some (v, t, l) ∧
      Event.attempted PhaseAction.deployAction "B" ∈ t ∧
      Event.attempted PhaseAction.runAPITest "A" ∈ t) := by
  refine ⟨(deploy_per_stack_failures_confined envDeployW oFailW oOkW).1, ?_⟩
  have hsome : (Deploy envDeployW oFailW).isSome = true := rfl
  cases hrun : Deploy envDeployW oFailW with
  | none => rw [hrun] at hsome; simp at hsome
  | some r =>
    obtain ⟨v, t, l⟩ := r
    have hB := (deploy_per_stack_failures_confined envDeployW oFailW oOkW).2
      rfl rfl rfl v t l hrun
    exact ⟨v, t, l, rfl,
      hB.1 "B" (by decide) PhaseAction.deployAction (by decide),
      ((hB.2 rfl).2 rfl "A" (by decide)).2⟩

theorem localCheck_declined (g a c : Bool) (hg : g = true) (ha : a = false)
    (hc : c = false) : LocalCheck g a c = .error declineMsg := by
  subst hg; subst ha; subst hc; rfl

/-- C9: in every mutating mode, a declined confirmation prompt (local
darwin invocation, auto-apply off, operator answering no) makes the mode
return an error with an empty event trace: no deployer is constructed,
no per-stack action is attempted, and the capacity update is not
applied.  In the update flow the prompt sits after the read-only
inspection and validation steps, so with those succeeding the returned
error is exactly the decline error; in all cases the result is an error
before any mutating event. -/
theorem decline_aborts_mutating_modes (envD : DeployEnv)
    (oD : PhaseAction → String → Except String Unit) (envDel : DeleteEnv)
    (oDel : PhaseAction → String → Except String Unit) (envU : UpdateEnv)
    (hD1 : envD.goosDarwin = true) (hD2 : envD.autoApply = false)
    (hD3 : envD.askContinue = false)
    (hE1 : envDel.goosDarwin = true) (hE2 : envDel.autoApply = false)
    (hE3 : envDel.askContinue = false)
    (hU1 : envU.goosDarwin = true) (hU2 : envU.autoApply = false)
    (hU3 : envU.askContinue = false) :
    Deploy envD oD = some (.error declineMsg, [], []) ∧
    Delete envDel oDel = some (.error declineMsg, [], []) ∧
    (∃ e, Update envU = some (.error e, [])) ∧
    (∀ cap name, envU.selectStack = .ok () → envU.stackInfo = .ok (cap, name) →
      CheckUpdateInformation cap (updateNewCapacity envU.overrides cap) = .ok () →
      Update envU = some (.error declineMsg, [])) := by
  refine ⟨?_, ?_, ?_, ?_⟩
  · simp only [Deploy, localCheck_declined _ _ _ hD1 hD2 hD3]
  · simp only [Delete, localCheck_declined _ _ _ hE1 hE2 hE3]
  · cases hsel : envU.selectStack with
    | error e => exact ⟨e, by simp only [Update, hsel]⟩
    | ok u =>
      cases u
      cases hinfo : envU.stackInfo with
      | error e => exact ⟨e, by simp only [Update, hsel, hinfo]⟩
      | ok p =>
        obtain ⟨cap, name⟩ := p
        cases hchk : CheckUpdateInformation cap (updateNewCapacity envU.overrides cap) with
        | error e => exact ⟨e, by simp only [Update, hsel, hinfo, hchk]⟩
        | ok u =>
          cases u
          exact ⟨declineMsg, by simp only [Update, hsel, hinfo, hchk,
            localCheck_declined _ _ _ hU1 hU2 hU3]⟩
  · intro cap name hsel hinfo hchk
    simp only [Update, hsel, hinfo, hchk, localCheck_declined _ _ _ hU1 hU2 hU3]

/-- A deploy environment whose prompt is shown and declined. -/
def envDeployDecl : DeployEnv :=
  ⟨["A"], true, false, false, .ok (), false, .ok (),
    ownNameProbe (fun _ _ => true), ownNameProbe (fun _ _ => true), 0, 100, fun _ => 1, 1, 1⟩

/-- A delete environment whose prompt is shown and declined. -/
def envDeleteDecl : DeleteEnv :=
  ⟨["A"], true, false, false, false, .ok (), ownNameProbe (fun _ _ => true), 1⟩

/-- An update environment whose prompt is shown and declined, with the
read path succeeding and the computed triple valid. -/
def envUpdateDecl : UpdateEnv :=
  ⟨true, false, false, .ok (), .ok (⟨1, 3, 2⟩, "S"), ⟨-1, -1, 3⟩, .ok (),
    ownNameProbe (fun _ _ => true), 0, 100, fun _ => 1, 1⟩

/-- Witness for C9 at the three concrete declined environments. -/
theorem decline_aborts_mutating_modes_witness :
    envDeployDecl.goosDarwin = true ∧
    Deploy envDeployDecl oOkW = some (.error declineMsg, [], []) ∧
    Delete envDeleteDecl oOkW = some (.error declineMsg, [], []) ∧
    Update envUpdateDecl = some (.error declineMsg, []) := by
  have h := decline_aborts_mutating_modes envDeployDecl oOkW envDeleteDecl oOkW
    envUpdateDecl rfl rfl rfl rfl rfl rfl rfl rfl rfl
  exact ⟨rfl, h.1, h.2.1, h.2.2.2 ⟨1, 3, 2⟩ "S" rfl rfl rfl⟩

end Goployer
